import Mathlib

/-!
Verification development for the HSM hierarchical state machine engine
(`hsm.c` of the phamnamhien/HSM repository).

The C code is shallowly embedded as executable Lean definitions:

* `hsm_state_t` objects form a statically constructed tree linked by
  `parent` pointers and compared by pointer identity.  A state is embedded
  as an inductive tree path (`State`): each node carries a numeric id, and
  two states are equal exactly when they are the same node of the same
  tree, which models C reference equality.
* Machine instances (`hsm_t`) become the structure `Hsm`; the `void*`
  fields (`name`, event data, transition param) are embedded as
  `Option Nat` with `none` standing for `NULL`.
* A state handler is an arbitrary C function.  Its behavior is embedded as
  an environment `HandlerEnv`: for a state, an event and a data pointer it
  yields the residual event the handler returns together with the ordered
  list of `hsm_transition(hsm, t, NULL, NULL)` calls the handler body makes
  (the shape every handler of the repository's examples has).  During a
  transition leg `in_transition` is `1`, so such a nested call only stores
  the target into `hsm->next` (hsm.c line 230-233); that is applied
  directly by `applyDeferred`, and the lemma
  `applyRequests_of_in_transition` below checks this agrees with running
  `hsm_transition` itself.  During `hsm_dispatch` the nested calls run the
  full transition engine.
* The optional timer backend (`hsm_timer_if_t`) is embedded as a `Backend`
  holding the multiset of armed backend timers, a fresh-handle counter and
  a failure flag for the `start` primitive; `timer_if : Bool` on the
  instance says whether a backend with usable `start`/`stop` function
  pointers was configured (the C code's individual `NULL` checks on the
  function pointers collapse to this flag).
* Handler invocations, the transition hook and backend calls are recorded
  in an output `Trace`, which is what the ordering claims are stated on.
* `hsm_transition` can recurse forever through deferred transitions (the
  spec itself notes this); the recursion is embedded with an explicit
  `fuel` argument, `none` meaning the fuel ran out.  All claims are stated
  with enough fuel.
* The `uint8_t` depth counters cannot wrap for states built by
  `hsm_state_create` (depth is bounded by `HSM_CFG_MAX_DEPTH = 8`), so
  depths are embedded as `Nat`.
-/

/-- States of the machine: a node of the state tree, identified by its id
and its whole parent chain (C pointer identity). -/
inductive State where
  | root (id : Nat)
  | child (id : Nat) (parent : State)
deriving DecidableEq

/-- Parent pointer of a state, `none` for a root state (C `NULL`). -/
def State.parent : State → Option State
  | .root _ => none
  | .child _ p => some p

/-- Depth of a state counted by the loop of `prv_get_state_depth`
(hsm.c lines 42-52): number of steps until the parent pointer is `NULL`. -/
def State.depth : State → Nat
  | .root _ => 0
  | .child _ p => p.depth + 1

/-- The C helper `prv_get_state_depth` also accepts a `NULL` state
(it is called on `parent` in `hsm_state_create`), returning 0. -/
def prv_get_state_depth : Option State → Nat
  | none => 0
  | some s => s.depth

/-- Chain of states from a state up to its root, leaf first: the list of
states visited by `for (state = s; state != NULL; state = state->parent)`. -/
def chainToRoot : State → List State
  | .root i => [State.root i]
  | .child i p => State.child i p :: chainToRoot p

/-- Root state at the top of a state's parent chain. -/
def rootOf : State → State
  | .root i => State.root i
  | .child _ p => rootOf p

/-- Walking `n` parent pointers up from a state.  The `prv_find_lca` code
only does this while the walked state is deeper than the other one, so the
step from a root (which in C would dereference `NULL`) is unreachable;
it is embedded as staying put. -/
def upN : State → Nat → State
  | s, 0 => s
  | .root i, _ + 1 => State.root i
  | .child _ p, n + 1 => upN p n

/-- Lockstep walk of the common-parent loop of `prv_find_lca`
(hsm.c lines 80-84), on two states of equal depth: while the two pointers
differ, both step to their parents; two distinct roots step to `NULL`
simultaneously and `NULL == NULL` ends the loop, giving `none`.
The mixed root/child case is unreachable at equal depth (in C it would
dereference `NULL`) and is embedded as `none`. -/
def findLCAeq : State → State → Option State
  | State.child i p, State.child j q =>
    if State.child i p = State.child j q then some (State.child i p)
    else findLCAeq p q
  | s1, s2 => if s1 = s2 then some s1 else none

/-- Lowest common ancestor of two states per `prv_find_lca`
(hsm.c lines 60-87): depths are equalized by advancing the deeper pointer,
then both advance in lockstep until they are the same reference.
`none` is the virtual common root of two disjoint trees. -/
def prv_find_lca (state1 state2 : State) : Option State :=
  let depth1 := state1.depth
  let depth2 := state2.depth
  if depth2 ≤ depth1 then findLCAeq (upN state1 (depth1 - depth2)) state2
  else findLCAeq state1 (upN state2 (depth2 - depth1))

/-- Path collection loop of `hsm_transition` (hsm.c lines 252-254 and
258-260) on a non-`NULL` starting state:
`for (state = s; state != lca; state = state->parent) push state`.
When the loop walks past a root without meeting `lca`, the C code would
next dereference `NULL`; that only happens when `lca` is neither `NULL`
nor an ancestor, which the LCA computation rules out, and the embedding
stops at the root in that case. -/
def buildPathS : State → Option State → List State
  | State.root i, lca =>
    if some (State.root i) = lca then [] else [State.root i]
  | State.child i p, lca =>
    if some (State.child i p) = lca then []
    else State.child i p :: buildPathS p lca

/-- Path collection loop including the `NULL` starting pointer case
(the loop guard `state != lca` stops immediately when both are `NULL`). -/
def buildPath : Option State → Option State → List State
  | none, _ => []
  | some s, lca => buildPathS s lca

/-- Event values (`hsm_event_t` is `uint32_t`; hsm.h). -/
abbrev hsm_event_t := Nat

def HSM_EVENT_NONE : hsm_event_t := 0x00
def HSM_EVENT_ENTRY : hsm_event_t := 0x01
def HSM_EVENT_EXIT : hsm_event_t := 0x02
def HSM_EVENT_USER : hsm_event_t := 0x10

/-- Configured maximum hierarchy depth (`hsm_config.h`). -/
def HSM_CFG_MAX_DEPTH : Nat := 8

/-- Result codes of the engine (`hsm_result_t` in hsm.h). -/
inductive hsm_result_t where
  | ok
  | error
  | invalid_param
  | max_depth
deriving DecidableEq

/-- Opaque `void*` payloads and parameters; `none` is `NULL`. -/
abbrev VoidPtr := Option Nat

/-- Behavior of one handler invocation: the residual event it returns and
the targets of the `hsm_transition(hsm, target, NULL, NULL)` calls its body
makes, in order. -/
structure HandlerResult where
  ret : hsm_event_t
  requests : List State
deriving DecidableEq

/-- Handler environment: the behavior of every state's handler function.
Every state built by `hsm_state_create` has a non-`NULL` handler, so the
environment is total. -/
abbrev HandlerEnv := State → hsm_event_t → VoidPtr → HandlerResult

/-- Execute a state handler (`prv_execute_state`, hsm.c lines 97-103);
states on exit and entry paths are non-`NULL` and their handlers are
non-`NULL`, so this is just the environment lookup. -/
def prv_execute_state (env : HandlerEnv) (s : State) (e : hsm_event_t)
    (d : VoidPtr) : HandlerResult :=
  env s e d

/-- The hook argument of `hsm_transition` (`method`): `none` is a `NULL`
function pointer; a supplied hook is described, like a handler, by the
transition requests its body makes. -/
abbrev HookSpec := List State

/-- Timer backend state: armed backend timers, the next fresh handle, and
whether the next `start` call fails (returns a `NULL` handle). -/
structure Backend where
  armed : List Nat
  nextHandle : Nat
  failNext : Bool
deriving DecidableEq

/-- Backend `stop` primitive: the handle is disarmed. -/
def Backend.stop (bk : Backend) (h : Nat) : Backend :=
  { bk with armed := bk.armed.erase h }

/-- Backend `start` primitive: either fails (returns `none`, the `NULL`
handle) or arms a fresh handle. -/
def Backend.start (bk : Backend) : Option Nat × Backend :=
  if bk.failNext then (none, bk)
  else (some bk.nextHandle,
    { bk with armed := bk.nextHandle :: bk.armed,
              nextHandle := bk.nextHandle + 1 })

/-- Timer modes (`hsm_timer_mode_t`). -/
inductive hsm_timer_mode_t where
  | one_shot
  | periodic
deriving DecidableEq

/-- Machine instance (`hsm_t` in hsm.h, with `HSM_CFG_HISTORY` enabled).
`timer_if` records whether a timer backend with usable function pointers
was configured. -/
structure Hsm where
  current : State
  initial : State
  next : Option State
  name : VoidPtr
  depth : Nat
  in_transition : Bool
  timer_handle : Option Nat
  timer_event : hsm_event_t
  timer_if : Bool
  history : Option State
deriving DecidableEq

/-- Observable steps of an execution, in order: handler invocations (with
the event and data actually passed), hook invocation (with its param), and
backend timer calls. -/
inductive TraceItem where
  | handler (s : State) (e : hsm_event_t) (d : VoidPtr)
  | hook (d : VoidPtr)
  | timerStop (h : Nat)
  | timerStart (h : Option Nat) (period_ms : Nat) (periodic : Bool)
deriving DecidableEq

abbrev Trace := List TraceItem

/-- Effect of a sequence of nested `hsm_transition` calls made while
`in_transition` is set: each one just overwrites `hsm->next`
(hsm.c lines 230-233). -/
def applyDeferred (hsm : Hsm) (reqs : List State) : Hsm :=
  reqs.foldl (fun h t => { h with next := some t }) hsm

/-- Exit and entry loops of `hsm_transition` (hsm.c lines 265-267 and
275-277) and the entry loop of `hsm_init` (lines 165-167): invoke each
state's handler in list order with the given event and data, recording the
invocation and applying the handler's deferred transition requests
(`in_transition` is `1` throughout these loops).  The residual event a
handler returns is discarded here, as in the C loops. -/
def runHandlers (env : HandlerEnv) : Hsm → List State → hsm_event_t →
    VoidPtr → Hsm × Trace
  | hsm, [], _, _ => (hsm, [])
  | hsm, s :: rest, e, d =>
    let r := prv_execute_state env s e d
    let h1 := applyDeferred hsm r.requests
    let rec1 := runHandlers env h1 rest e d
    (rec1.1, TraceItem.handler s e d :: rec1.2)

/-- Timer release done by `hsm_transition` before the exit path runs
(hsm.c lines 240-245) and by `hsm_timer_stop` (lines 415-419): if a timer
is armed and a backend is configured, stop it and clear both the handle
and the bound event. -/
def stopCurrentTimer (hsm : Hsm) (bk : Backend) : Hsm × Backend × Trace :=
  match hsm.timer_handle with
  | some h =>
    if hsm.timer_if then
      ({ hsm with timer_handle := none, timer_event := HSM_EVENT_NONE },
       bk.stop h, [TraceItem.timerStop h])
    else (hsm, bk, [])
  | none => (hsm, bk, [])

/-- Preparation phase of a transition leg (hsm.c lines 235-262): record
history, release the timer, compute the LCA and the exit and entry paths,
set `in_transition`.  Returns the state at the point where the exit phase
begins, together with the paths. -/
def transitionPrepare (hsm : Hsm) (bk : Backend) (target : State) :
    Hsm × Backend × Trace × List State × List State :=
  let h0 := { hsm with history := some hsm.current }
  let st := stopCurrentTimer h0 bk
  let h1 := st.1
  let lca := prv_find_lca h1.current target
  let ep := buildPath (some h1.current) lca
  let np := buildPath (some target) lca
  ({ h1 with in_transition := true }, st.2.1, st.2.2, ep, np)

/-- Optional transition hook call (hsm.c lines 270-272); runs with
`in_transition` set, so its transition requests are deferrals. -/
def runHook (hsm : Hsm) (hook : Option HookSpec) (d : VoidPtr) :
    Hsm × Trace :=
  match hook with
  | none => (hsm, [])
  | some reqs => (applyDeferred hsm reqs, [TraceItem.hook d])

/-- One non-deferred leg of `hsm_transition` (hsm.c lines 235-283):
prepare, run exit actions child-to-parent, run the hook, run entry actions
parent-to-child (reverse of collection order), update `current` and
`depth`, clear `in_transition`. -/
def transitionLeg (env : HandlerEnv) (hsm : Hsm) (bk : Backend)
    (target : State) (param : VoidPtr) (hook : Option HookSpec) :
    Hsm × Backend × Trace :=
  let pr := transitionPrepare hsm bk target
  let ep := pr.2.2.2.1
  let np := pr.2.2.2.2
  let r1 := runHandlers env pr.1 ep HSM_EVENT_EXIT param
  let r2 := runHook r1.1 hook param
  let r3 := runHandlers env r2.1 np.reverse HSM_EVENT_ENTRY param
  let h5 := { r3.1 with current := target,
                        depth := prv_get_state_depth (some target),
                        in_transition := false }
  (h5, pr.2.1, pr.2.2.1 ++ r1.2 ++ r2.2 ++ r3.2)

/-- The transition engine `hsm_transition` (hsm.c lines 218-293).  The
`hsm` and `target` arguments are non-`NULL` by typing (the C code returns
`HSM_RES_INVALID_PARAM` on `NULL`).  If a transition is already in
progress the call only overwrites the deferred-target slot.  Otherwise one
leg runs, and if a nested call populated `hsm->next`, the engine
immediately transitions to that target with `NULL` param and hook; `fuel`
bounds this deferral chain, `none` meaning it was exhausted. -/
def hsm_transition (env : HandlerEnv) :
    Nat → Hsm → Backend → State → VoidPtr → Option HookSpec →
    Option (Hsm × Backend × hsm_result_t × Trace)
  | 0, _, _, _, _, _ => none
  | fuel + 1, hsm, bk, target, param, hook =>
    if hsm.in_transition then
      some ({ hsm with next := some target }, bk, hsm_result_t.ok, [])
    else
      let leg := transitionLeg env hsm bk target param hook
      let h1 := leg.1
      match h1.next with
      | none => some (h1, leg.2.1, hsm_result_t.ok, leg.2.2)
      | some n =>
        match hsm_transition env fuel { h1 with next := none } leg.2.1 n
            none none with
        | none => none
        | some out => some (out.1, out.2.1, out.2.2.1, leg.2.2 ++ out.2.2.2)

/-- Instance fields as written by `hsm_init` before the initial entry
chain runs (hsm.c lines 149-161). -/
def initBase (name : VoidPtr) (initial_state : State) (timer_if : Bool) :
    Hsm :=
  { current := initial_state
    initial := initial_state
    next := none
    name := name
    depth := prv_get_state_depth (some initial_state)
    in_transition := false
    timer_handle := none
    timer_event := HSM_EVENT_NONE
    timer_if := timer_if
    history := none }

/-- Instance initialization `hsm_init` (hsm.c lines 142-178): populate the
fields, run ENTRY for the whole initial chain leaf to root with
`in_transition` set and `NULL` data, then perform the same deferred
transition check as `hsm_transition`. -/
def hsm_init (env : HandlerEnv) (fuel : Nat) (name : VoidPtr)
    (initial_state : State) (timer_if : Bool) (bk : Backend) :
    Option (Hsm × Backend × hsm_result_t × Trace) :=
  let h0 := initBase name initial_state timer_if
  let h1 := { h0 with in_transition := true }
  let r1 :=
    runHandlers env h1 (chainToRoot initial_state) HSM_EVENT_ENTRY none
  let h3 := { r1.1 with in_transition := false }
  match h3.next with
  | none => some (h3, bk, hsm_result_t.ok, r1.2)
  | some n =>
    match hsm_transition env fuel { h3 with next := none } bk n
        none none with
    | none => none
    | some out => some (out.1, out.2.1, out.2.2.1, r1.2 ++ out.2.2.2)

/-- Execution of the nested `hsm_transition` calls a handler makes while
dispatch is running: each call goes through the full transition engine
(if a transition is in progress it defers, otherwise it runs legs). -/
def applyRequests (env : HandlerEnv) (fuel : Nat) :
    Hsm → Backend → List State → Option (Hsm × Backend × Trace)
  | hsm, bk, [] => some (hsm, bk, [])
  | hsm, bk, t :: rest =>
    match hsm_transition env fuel hsm bk t none none with
    | none => none
    | some out1 =>
      match applyRequests env fuel out1.1 out1.2.1 rest with
      | none => none
      | some out2 => some (out2.1, out2.2.1, out1.2.2.2 ++ out2.2.2)

/-- Propagation loop of `hsm_dispatch` (hsm.c lines 199-205) over the
parent chain of the current state (the walk uses its own local pointer, so
transitions performed by handlers do not change it): invoke the handler
with the running event `evt`, and if the returned event is not
`HSM_EVENT_NONE` continue at the parent with that returned event. -/
def dispatchWalk (env : HandlerEnv) (fuel : Nat) :
    List State → Hsm → Backend → hsm_event_t → VoidPtr →
    Option (Hsm × Backend × Trace)
  | [], hsm, bk, _, _ => some (hsm, bk, [])
  | s :: rest, hsm, bk, evt, d =>
    if evt = HSM_EVENT_NONE then some (hsm, bk, [])
    else
      let r := prv_execute_state env s evt d
      match applyRequests env fuel hsm bk r.requests with
      | none => none
      | some out1 =>
        match dispatchWalk env fuel rest out1.1 out1.2.1 r.ret d with
        | none => none
        | some out2 =>
          some (out2.1, out2.2.1,
            TraceItem.handler s evt d :: (out1.2.2 ++ out2.2.2))

/-- The dispatch engine `hsm_dispatch` (hsm.c lines 187-208); the `hsm`
argument is non-`NULL` by typing (the C code returns
`HSM_RES_INVALID_PARAM` on `NULL`).  Always returns `HSM_RES_OK`: an event
no state consumes is silently dropped. -/
def hsm_dispatch (env : HandlerEnv) (fuel : Nat) (hsm : Hsm) (bk : Backend)
    (event : hsm_event_t) (data : VoidPtr) :
    Option (Hsm × Backend × hsm_result_t × Trace) :=
  match dispatchWalk env fuel (chainToRoot hsm.current) hsm bk event data with
  | none => none
  | some out => some (out.1, out.2.1, hsm_result_t.ok, out.2.2)

/-- State structure fields written by `hsm_state_create`
(`hsm_state_t`): handler function pointer, parent pointer, name. -/
structure hsm_state_struct where
  handler : Option Nat
  parent : Option State
  name : VoidPtr
deriving DecidableEq

/-- State construction `hsm_state_create` (hsm.c lines 113-132): `NULL`
state or handler is rejected; the depth `prv_get_state_depth(parent) + 1`
must stay below `HSM_CFG_MAX_DEPTH`; on success exactly the handler,
parent and name fields are populated.  The second component is the state
structure after the call (`none` when the state pointer was `NULL`). -/
def hsm_state_create (state : Option hsm_state_struct) (name : VoidPtr)
    (handler : Option Nat) (parent : Option State) :
    hsm_result_t × Option hsm_state_struct :=
  match state with
  | none => (hsm_result_t.invalid_param, none)
  | some old =>
    match handler with
    | none => (hsm_result_t.invalid_param, some old)
    | some h =>
      let depth := prv_get_state_depth parent + 1
      if HSM_CFG_MAX_DEPTH ≤ depth then (hsm_result_t.max_depth, some old)
      else (hsm_result_t.ok,
        some { handler := some h, parent := parent, name := name })

/-- Current-state query `hsm_get_current_state` (hsm.c lines 300-306). -/
def hsm_get_current_state (hsm : Option Hsm) : Option State :=
  match hsm with
  | none => none
  | some h => some h.current

/-- Chain walk of `hsm_is_in_state` (hsm.c lines 322-330): compare the
queried state against every state on the current chain by identity. -/
def isInChain : State → State → Nat
  | State.root i, st => if State.root i = st then 1 else 0
  | State.child i p, st =>
    if State.child i p = st then 1 else isInChain p st

/-- State membership query `hsm_is_in_state` (hsm.c lines 314-331):
returns `1` when the queried state is the current state or one of its
ancestors, `0` otherwise, and `0` on `NULL` arguments. -/
def hsm_is_in_state (hsm : Option Hsm) (state : Option State) : Nat :=
  match hsm, state with
  | some h, some st => isInChain h.current st
  | _, _ => 0

/-- History transition `hsm_transition_history` (hsm.c lines 339-350):
transition to the recorded history state, or to the original initial state
when no history was ever recorded. -/
def hsm_transition_history (env : HandlerEnv) (fuel : Nat) (hsm : Hsm)
    (bk : Backend) : Option (Hsm × Backend × hsm_result_t × Trace) :=
  match hsm.history with
  | none => hsm_transition env fuel hsm bk hsm.initial none none
  | some h => hsm_transition env fuel hsm bk h none none

/-- Timer arming `hsm_timer_start` (hsm.c lines 373-402): reject a missing
backend, a period below 1 ms or the `HSM_EVENT_NONE` event; stop an
already armed timer (clearing only the handle, lines 384-387); store the
bound event; ask the backend to start; on backend failure clear the
binding and report `HSM_RES_ERROR`. -/
def hsm_timer_start (hsm : Hsm) (bk : Backend) (event : hsm_event_t)
    (period_ms : Nat) (mode : hsm_timer_mode_t) :
    Hsm × Backend × hsm_result_t × Trace :=
  if hsm.timer_if = false then (hsm, bk, hsm_result_t.invalid_param, [])
  else if period_ms < 1 ∨ event = HSM_EVENT_NONE then
    (hsm, bk, hsm_result_t.invalid_param, [])
  else
    let stp :=
      match hsm.timer_handle with
      | some h =>
        ({ hsm with timer_handle := none }, bk.stop h,
         ([TraceItem.timerStop h] : Trace))
      | none => (hsm, bk, ([] : Trace))
    let h2 := { stp.1 with timer_event := event }
    let st := stp.2.1.start
    let res := st.1
    let tr2 := stp.2.2 ++
      [TraceItem.timerStart res period_ms
        (decide (mode = hsm_timer_mode_t.periodic))]
    match res with
    | none =>
      ({ h2 with timer_handle := none, timer_event := HSM_EVENT_NONE },
       st.2, hsm_result_t.error, tr2)
    | some nh =>
      ({ h2 with timer_handle := some nh }, st.2, hsm_result_t.ok, tr2)

/-- Timer release `hsm_timer_stop` (hsm.c lines 409-422); the stop branch
is exactly the release done inside `hsm_transition`. -/
def hsm_timer_stop (hsm : Hsm) (bk : Backend) :
    Hsm × Backend × hsm_result_t × Trace :=
  let st := stopCurrentTimer hsm bk
  (st.1, st.2.1, hsm_result_t.ok, st.2.2)

/-- Trace emitted by the timer release of a transition: a backend stop
call exactly when a timer is armed and a backend is configured. -/
def stopTrace (hsm : Hsm) : Trace :=
  match hsm.timer_handle with
  | some h => if hsm.timer_if then [TraceItem.timerStop h] else []
  | none => []

/-- Instance state after the timer release of a transition. -/
def afterStopHsm (hsm : Hsm) : Hsm :=
  match hsm.timer_handle with
  | some _ =>
    if hsm.timer_if then
      { hsm with timer_handle := none, timer_event := HSM_EVENT_NONE }
    else hsm
  | none => hsm

/-- Backend state after the timer release of a transition. -/
def afterStopBk (hsm : Hsm) (bk : Backend) : Backend :=
  match hsm.timer_handle with
  | some h => if hsm.timer_if then bk.stop h else bk
  | none => bk

/-- Trace emitted by the optional hook call. -/
def hookTraceOf : Option HookSpec → VoidPtr → Trace
  | none, _ => []
  | some _, d => [TraceItem.hook d]

/-- Transition requests made by the hook body (none for a `NULL` hook). -/
def hookRequests : Option HookSpec → List State
  | none => []
  | some reqs => reqs

/-- Exit path of a transition from `cur` to `target`: the states from
`cur` up to, excluding, the LCA, child first. -/
def exitPathOf (cur target : State) : List State :=
  buildPath (some cur) (prv_find_lca cur target)

/-- Entry path of a transition from `cur` to `target` in invocation
order: the states from the LCA down to `target`, parent first, target
last (the collection from `target` up to the LCA, reversed). -/
def entryPathOf (cur target : State) : List State :=
  (buildPath (some target) (prv_find_lca cur target)).reverse

/-- Complete observable trace of one transition leg: timer release, exit
actions child-to-parent with the param, the hook with the param, entry
actions parent-to-child with the param. -/
def legTrace (hsm : Hsm) (target : State) (param : VoidPtr)
    (hook : Option HookSpec) : Trace :=
  stopTrace hsm
    ++ (exitPathOf hsm.current target).map
        (fun s => TraceItem.handler s HSM_EVENT_EXIT param)
    ++ hookTraceOf hook param
    ++ (entryPathOf hsm.current target).map
        (fun s => TraceItem.handler s HSM_EVENT_ENTRY param)

/-- All nested transition requests made during one leg, in program
order: by exit handlers, the hook, then entry handlers. -/
def legRequests (env : HandlerEnv) (hsm : Hsm) (target : State)
    (param : VoidPtr) (hook : Option HookSpec) : List State :=
  ((exitPathOf hsm.current target).map
      (fun s => (env s HSM_EVENT_EXIT param).requests)).flatten
    ++ hookRequests hook
    ++ ((entryPathOf hsm.current target).map
        (fun s => (env s HSM_EVENT_ENTRY param).requests)).flatten

/-- All nested transition requests made by the initial entry chain of
`hsm_init`. -/
def initRequests (env : HandlerEnv) (initial_state : State) : List State :=
  ((chainToRoot initial_state).map
      (fun s => (env s HSM_EVENT_ENTRY none).requests)).flatten

/-- Handler environments that never call `hsm_transition` from inside a
handler. -/
def noReqEnv (env : HandlerEnv) : Prop :=
  ∀ s e d, (env s e d).requests = []

/-- Modelled from the spec, for the refinement comparison of the dispatch
claim: the sequence of (state, event passed) handler invocations that the
amended propagation rule prescribes — walk the chain leaf to root, each
handler receiving the residual event returned by the previous one
(the original event for the first), stopping at the none event. -/
def walkSpec (env : HandlerEnv) (d : VoidPtr) :
    List State → hsm_event_t → List (State × hsm_event_t)
  | [], _ => []
  | s :: rest, e =>
    if e = HSM_EVENT_NONE then []
    else (s, e) :: walkSpec env d rest (env s e d).ret

/-- Predicate of the original dispatch claim on a trace: every handler
invocation in it carries the one original event. -/
def origEventOnly (tr : Trace) (e0 : hsm_event_t) : Bool :=
  tr.all fun i =>
    match i with
    | TraceItem.handler _ e _ => e = e0
    | _ => true

/-- Fixture: a small state tree used by the concrete witnesses.
`wA2 → wA1 → wRoot` and `wB2 → wB1 → wRoot` are two branches of one
tree; `wC1` lives under the separate root `wR2`. -/
def wRoot : State := State.root 0

def wA1 : State := State.child 1 wRoot

def wA2 : State := State.child 2 wA1

def wB1 : State := State.child 3 wRoot

def wB2 : State := State.child 4 wB1

def wR2 : State := State.root 10

def wC1 : State := State.child 11 wR2

/-- Fixture: handler environment whose handlers consume every event and
never request transitions. -/
def envQuiet : HandlerEnv := fun _ _ _ => { ret := HSM_EVENT_NONE, requests := [] }

/-- Fixture: environment where the ENTRY handler of `wB2` requests
transitions to `wA1` and then `wA2` before returning. -/
def envDefer : HandlerEnv := fun s e _ =>
  if s = wB2 ∧ e = HSM_EVENT_ENTRY then
    { ret := HSM_EVENT_NONE, requests := [wA1, wA2] }
  else { ret := HSM_EVENT_NONE, requests := [] }

/-- Fixture: environment where `wA2` transforms user event 17 into 42
before propagating, and `wA1` consumes 42. -/
def envXform : HandlerEnv := fun s e _ =>
  if s = wA2 ∧ e = 17 then { ret := 42, requests := [] }
  else if s = wA1 ∧ e = 42 then { ret := HSM_EVENT_NONE, requests := [] }
  else { ret := e, requests := [] }

/-- Fixture: a freshly initialized instance at `cur` (as `hsm_init`
leaves it when no entry handler defers), with no timer backend. -/
def mkHsm (cur ini : State) : Hsm :=
  { current := cur, initial := ini, next := none, name := none,
    depth := State.depth cur, in_transition := false,
    timer_handle := none, timer_event := HSM_EVENT_NONE, timer_if := false,
    history := none }

/-- Fixture: an idle timer backend. -/
def bk0 : Backend := { armed := [], nextHandle := 100, failNext := false }

/-- Fixture: an instance with a configured backend and an armed timer
with handle 5 bound to event 33. -/
def hsmT : Hsm :=
  { mkHsm wA2 wA2 with timer_if := true, timer_handle := some 5,
                       timer_event := 33 }

/-- Fixture: the backend matching `hsmT`, with timer 5 armed. -/
def bkT : Backend := { armed := [5], nextHandle := 100, failNext := false }

/-- Fixture: a state at depth 7, the deepest constructible under
`HSM_CFG_MAX_DEPTH = 8`. -/
def wDeep7 : State :=
  State.child 27 (State.child 26 (State.child 25 (State.child 24
    (State.child 23 (State.child 22 (State.child 21 (State.root 20)))))))

/-! Lemmas about parent chains and the LCA computation. -/

theorem mem_chainToRoot_self (s : State) : s ∈ chainToRoot s := by
  cases s <;> simp [chainToRoot]

theorem chainToRoot_trans {c x s : State} (hc : c ∈ chainToRoot s)
    (hx : x ∈ chainToRoot c) : x ∈ chainToRoot s := by
  induction s with
  | root i =>
    simp only [chainToRoot, List.mem_singleton] at hc
    subst hc
    exact hx
  | child i p ih =>
    simp only [chainToRoot, List.mem_cons] at hc ⊢
    rcases hc with rfl | hc
    · simpa [chainToRoot] using hx
    · exact Or.inr (ih hc)

theorem depth_le_of_mem_chainToRoot {c s : State}
    (hc : c ∈ chainToRoot s) : c.depth ≤ s.depth := by
  induction s with
  | root i =>
    simp only [chainToRoot, List.mem_singleton] at hc
    subst hc
    exact Nat.le_refl _
  | child i p ih =>
    simp only [chainToRoot, List.mem_cons] at hc
    rcases hc with rfl | hc
    · exact Nat.le_refl _
    · exact Nat.le_trans (ih hc) (Nat.le_succ _)

theorem eq_of_mem_chainToRoot_of_depth_le {c s : State}
    (hc : c ∈ chainToRoot s) (hd : s.depth ≤ c.depth) : c = s := by
  induction s with
  | root i =>
    simpa [chainToRoot] using hc
  | child i p ih =>
    simp only [chainToRoot, List.mem_cons] at hc
    rcases hc with rfl | hc
    · rfl
    · have := depth_le_of_mem_chainToRoot hc
      simp only [State.depth] at hd
      omega

theorem upN_mem_chainToRoot {s : State} {n : Nat} (hn : n ≤ s.depth) :
    upN s n ∈ chainToRoot s := by
  induction s generalizing n with
  | root i =>
    simp only [State.depth, Nat.le_zero] at hn
    subst hn
    simp [upN, chainToRoot]
  | child i p ih =>
    match n with
    | 0 => exact mem_chainToRoot_self _
    | n + 1 =>
      simp only [State.depth, Nat.succ_le_succ_iff] at hn
      simp only [upN, chainToRoot, List.mem_cons]
      exact Or.inr (ih hn)

theorem depth_upN {s : State} {n : Nat} (hn : n ≤ s.depth) :
    (upN s n).depth = s.depth - n := by
  induction s generalizing n with
  | root i =>
    simp only [State.depth, Nat.le_zero] at hn
    subst hn
    simp [upN]
  | child i p ih =>
    match n with
    | 0 => simp [upN]
    | n + 1 =>
      simp only [State.depth, Nat.succ_le_succ_iff] at hn
      simp only [upN, State.depth, Nat.succ_sub_succ]
      exact ih hn

theorem mem_chainToRoot_upN {c s : State} {n : Nat}
    (hc : c ∈ chainToRoot s) (hd : c.depth + n ≤ s.depth) :
    c ∈ chainToRoot (upN s n) := by
  induction s generalizing n with
  | root i =>
    simp only [State.depth, Nat.le_zero, Nat.add_eq_zero] at hd
    rcases hd with ⟨-, rfl⟩
    exact hc
  | child i p ih =>
    match n with
    | 0 => exact hc
    | n + 1 =>
      simp only [chainToRoot, List.mem_cons] at hc
      simp only [State.depth] at hd
      rcases hc with rfl | hc
      · simp only [State.depth] at hd
        omega
      · exact ih hc (by omega)

theorem rootOf_upN {s : State} {n : Nat} (hn : n ≤ s.depth) :
    rootOf (upN s n) = rootOf s := by
  induction s generalizing n with
  | root i =>
    simp only [State.depth, Nat.le_zero] at hn
    subst hn
    simp [upN]
  | child i p ih =>
    match n with
    | 0 => rfl
    | n + 1 =>
      simp only [State.depth, Nat.succ_le_succ_iff] at hn
      simp only [upN, rootOf]
      exact ih hn

theorem findLCAeq_self (s : State) : findLCAeq s s = some s := by
  cases s <;> simp [findLCAeq]

theorem findLCAeq_mem {s1 s2 a : State}
    (h : findLCAeq s1 s2 = some a) :
    a ∈ chainToRoot s1 ∧ a ∈ chainToRoot s2 := by
  induction s1 generalizing s2 with
  | root i =>
    cases s2 with
    | root j =>
      simp only [findLCAeq] at h
      split at h
      · rename_i heq
        cases h
        rw [heq] at *
        exact ⟨by rw [← heq]; exact mem_chainToRoot_self _,
               mem_chainToRoot_self _⟩
      · cases h
    | child j q =>
      simp only [findLCAeq] at h
      split at h
      · rename_i heq
        cases heq
      · cases h
  | child i p ih =>
    cases s2 with
    | root j =>
      simp only [findLCAeq] at h
      split at h
      · rename_i heq
        cases heq
      · cases h
    | child j q =>
      simp only [findLCAeq] at h
      split at h
      · rename_i heq
        cases h
        exact ⟨mem_chainToRoot_self _, heq ▸ mem_chainToRoot_self _⟩
      · have := ih h
        exact ⟨List.mem_cons_of_mem _ this.1, List.mem_cons_of_mem _ this.2⟩

theorem findLCAeq_dom {s1 s2 c : State} (hdep : s1.depth = s2.depth)
    (h1 : c ∈ chainToRoot s1) (h2 : c ∈ chainToRoot s2) :
    ∃ a, findLCAeq s1 s2 = some a ∧ c ∈ chainToRoot a := by
  induction s1 generalizing s2 with
  | root i =>
    cases s2 with
    | root j =>
      simp only [chainToRoot, List.mem_singleton] at h1 h2
      subst h1
      cases h2
      exact ⟨State.root i, by simp [findLCAeq], mem_chainToRoot_self _⟩
    | child j q =>
      simp only [State.depth] at hdep
      omega
  | child i p ih =>
    cases s2 with
    | root j =>
      simp only [State.depth] at hdep
      omega
    | child j q =>
      by_cases heq : State.child i p = State.child j q
      · refine ⟨State.child i p, ?_, heq ▸ h1⟩
        simp [findLCAeq, heq]
      · have hc1 : c ∈ chainToRoot p := by
          simp only [chainToRoot, List.mem_cons] at h1
          rcases h1 with rfl | h1
          · exfalso
            have := eq_of_mem_chainToRoot_of_depth_le h2 (by omega)
            exact heq this
          · exact h1
        have hc2 : c ∈ chainToRoot q := by
          simp only [chainToRoot, List.mem_cons] at h2
          rcases h2 with rfl | h2
          · exfalso
            have := eq_of_mem_chainToRoot_of_depth_le h1 (by omega)
            exact heq this.symm
          · exact h2
        have hdep' : p.depth = q.depth := by
          simp only [State.depth] at hdep
          omega
        obtain ⟨a, ha, hmem⟩ := ih hdep' hc1 hc2
        exact ⟨a, by simp [findLCAeq, heq, ha], hmem⟩

theorem findLCAeq_none_of_rootOf_ne {s1 s2 : State}
    (h : rootOf s1 ≠ rootOf s2) : findLCAeq s1 s2 = none := by
  induction s1 generalizing s2 with
  | root i =>
    cases s2 with
    | root j =>
      have : State.root i ≠ State.root j := by
        intro heq
        exact h (by rw [heq])
      simp [findLCAeq, this]
    | child j q =>
      simp [findLCAeq]
  | child i p ih =>
    cases s2 with
    | root j =>
      simp [findLCAeq]
    | child j q =>
      have hne : State.child i p ≠ State.child j q := by
        intro heq
        exact h (by rw [heq])
      have : rootOf p ≠ rootOf q := h
      simp [findLCAeq, hne, ih this]

theorem prv_find_lca_self (s : State) : prv_find_lca s s = some s := by
  simp [prv_find_lca, upN, findLCAeq_self]

theorem prv_find_lca_mem {s t a : State}
    (h : prv_find_lca s t = some a) :
    a ∈ chainToRoot s ∧ a ∈ chainToRoot t := by
  unfold prv_find_lca at h
  simp only at h
  split at h
  · obtain ⟨ha1, ha2⟩ := findLCAeq_mem h
    exact ⟨chainToRoot_trans
      (upN_mem_chainToRoot (Nat.sub_le _ _)) ha1, ha2⟩
  · obtain ⟨ha1, ha2⟩ := findLCAeq_mem h
    exact ⟨ha1, chainToRoot_trans
      (upN_mem_chainToRoot (Nat.sub_le _ _)) ha2⟩

theorem prv_find_lca_dom {s t c : State} (h1 : c ∈ chainToRoot s)
    (h2 : c ∈ chainToRoot t) :
    ∃ a, prv_find_lca s t = some a ∧ c ∈ chainToRoot a := by
  unfold prv_find_lca
  simp only
  split
  · rename_i hle
    have hcd : c.depth ≤ t.depth := depth_le_of_mem_chainToRoot h2
    have h1' : c ∈ chainToRoot (upN s (s.depth - t.depth)) :=
      mem_chainToRoot_upN h1 (by omega)
    exact findLCAeq_dom
      (by rw [depth_upN (Nat.sub_le _ _)]; omega) h1' h2
  · rename_i hlt
    have hcd : c.depth ≤ s.depth := depth_le_of_mem_chainToRoot h1
    have h2' : c ∈ chainToRoot (upN t (t.depth - s.depth)) :=
      mem_chainToRoot_upN h2 (by omega)
    exact findLCAeq_dom
      (by rw [depth_upN (Nat.sub_le _ _)]; omega) h1 h2'

theorem prv_find_lca_none_of_rootOf_ne {s t : State}
    (h : rootOf s ≠ rootOf t) : prv_find_lca s t = none := by
  unfold prv_find_lca
  simp only
  split
  · exact findLCAeq_none_of_rootOf_ne
      (by rw [rootOf_upN (Nat.sub_le _ _)]; exact h)
  · exact findLCAeq_none_of_rootOf_ne
      (by rw [rootOf_upN (Nat.sub_le _ _)]; exact h)

theorem buildPathS_self (s : State) : buildPathS s (some s) = [] := by
  cases s <;> simp [buildPathS]

theorem buildPathS_none (s : State) :
    buildPathS s none = chainToRoot s := by
  induction s with
  | root i => simp [buildPathS, chainToRoot]
  | child i p ih => simp [buildPathS, chainToRoot, ih]

theorem buildPathS_takeWhile (s : State) (lca : Option State) :
    buildPathS s lca =
      (chainToRoot s).takeWhile (fun x => decide (some x ≠ lca)) := by
  induction s with
  | root i =>
    by_cases h : some (State.root i) = lca <;>
      simp [buildPathS, chainToRoot, List.takeWhile, h]
  | child i p ih =>
    by_cases h : some (State.child i p) = lca <;>
      simp [buildPathS, chainToRoot, List.takeWhile, h, ih]

/-! Lemmas about handler execution and the transition leg. -/

theorem applyDeferred_eq (hsm : Hsm) (reqs : List State) :
    applyDeferred hsm reqs =
      { hsm with next := reqs.foldl (fun _ t => some t) hsm.next } := by
  induction reqs generalizing hsm with
  | nil => rfl
  | cons t rest ih =>
    simp only [applyDeferred, List.foldl_cons] at *
    rw [ih]

theorem applyDeferred_append (hsm : Hsm) (a b : List State) :
    applyDeferred hsm (a ++ b) = applyDeferred (applyDeferred hsm a) b :=
  List.foldl_append ..

theorem foldl_last (reqs : List State) (x : Option State) :
    reqs.foldl (fun _ t => some t) x =
      (match reqs.getLast? with
       | some t => some t
       | none => x) := by
  induction reqs generalizing x with
  | nil => rfl
  | cons t rest ih =>
    cases rest with
    | nil => rfl
    | cons u rest' =>
      rw [List.foldl_cons, ih (some t), List.getLast?_cons_cons]
      cases hgl : (u :: rest').getLast? with
      | none => simp at hgl
      | some y => rfl

theorem runHandlers_snd (env : HandlerEnv) (hsm : Hsm) (l : List State)
    (e : hsm_event_t) (d : VoidPtr) :
    (runHandlers env hsm l e d).2 =
      l.map (fun s => TraceItem.handler s e d) := by
  induction l generalizing hsm with
  | nil => rfl
  | cons s rest ih =>
    simp only [runHandlers, List.map_cons]
    rw [ih]

theorem runHandlers_fst (env : HandlerEnv) (hsm : Hsm) (l : List State)
    (e : hsm_event_t) (d : VoidPtr) :
    (runHandlers env hsm l e d).1 =
      applyDeferred hsm
        ((l.map (fun s => (env s e d).requests)).flatten) := by
  induction l generalizing hsm with
  | nil => rfl
  | cons s rest ih =>
    simp only [runHandlers, List.map_cons, List.flatten_cons,
      applyDeferred_append, prv_execute_state]
    rw [ih]

theorem runHook_eq (hsm : Hsm) (hook : Option HookSpec) (d : VoidPtr) :
    runHook hsm hook d =
      (applyDeferred hsm (hookRequests hook), hookTraceOf hook d) := by
  cases hook <;> rfl

theorem stopCurrentTimer_eq (hsm : Hsm) (bk : Backend) :
    stopCurrentTimer hsm bk =
      (afterStopHsm hsm, afterStopBk hsm bk, stopTrace hsm) := by
  unfold stopCurrentTimer afterStopHsm afterStopBk stopTrace
  cases hsm.timer_handle with
  | none => rfl
  | some h =>
    by_cases ht : hsm.timer_if <;> simp [ht]

theorem transitionLeg_eq (env : HandlerEnv) (hsm : Hsm) (bk : Backend)
    (target : State) (param : VoidPtr) (hook : Option HookSpec) :
    transitionLeg env hsm bk target param hook =
      ({ afterStopHsm { hsm with history := some hsm.current } with
           current := target,
           depth := prv_get_state_depth (some target),
           in_transition := false,
           next := (legRequests env hsm target param hook).foldl
             (fun _ t => some t) hsm.next },
       afterStopBk hsm bk,
       legTrace hsm target param hook) := by
  cases hsm with
  | mk current initial next name depth intr th te tif hist =>
    cases th with
    | none =>
      cases hook <;>
        simp [transitionLeg, transitionPrepare, stopCurrentTimer,
          runHook_eq, runHandlers_fst, runHandlers_snd, applyDeferred_eq,
          legTrace, legRequests, exitPathOf, entryPathOf, stopTrace,
          afterStopHsm, afterStopBk, hookRequests, hookTraceOf,
          List.foldl_append, List.append_assoc]
    | some h =>
      by_cases ht : tif <;> cases hook <;>
        simp [transitionLeg, transitionPrepare, stopCurrentTimer,
          runHook_eq, runHandlers_fst, runHandlers_snd, applyDeferred_eq,
          legTrace, legRequests, exitPathOf, entryPathOf, stopTrace,
          afterStopHsm, afterStopBk, hookRequests, hookTraceOf,
          List.foldl_append, List.append_assoc, ht]

theorem hsm_transition_noDefer (env : HandlerEnv) (fuel : Nat) (hsm : Hsm)
    (bk : Backend) (target : State) (param : VoidPtr)
    (hook : Option HookSpec) (hintr : hsm.in_transition = false)
    (hnext : hsm.next = none)
    (hreq : legRequests env hsm target param hook = []) :
    hsm_transition env (fuel + 1) hsm bk target param hook =
      some ({ afterStopHsm { hsm with history := some hsm.current } with
                current := target,
                depth := prv_get_state_depth (some target),
                in_transition := false,
                next := none },
            afterStopBk hsm bk, hsm_result_t.ok,
            legTrace hsm target param hook) := by
  have hn : (afterStopHsm { hsm with history := some hsm.current }).next =
      hsm.next := by
    unfold afterStopHsm
    cases hsm.timer_handle with
    | none => rfl
    | some h => by_cases ht : hsm.timer_if <;> simp [ht]
  simp only [hsm_transition, hintr, Bool.false_eq_true, if_false,
    transitionLeg_eq, hreq, List.foldl_nil, hnext]

theorem applyRequests_of_in_transition (env : HandlerEnv) (fuel : Nat)
    (hsm : Hsm) (bk : Backend) (reqs : List State)
    (h : hsm.in_transition = true) :
    applyRequests env (fuel + 1) hsm bk reqs =
      some (applyDeferred hsm reqs, bk, []) := by
  induction reqs generalizing hsm with
  | nil => rfl
  | cons t rest ih =>
    have step : hsm_transition env (fuel + 1) hsm bk t none none =
        some ({ hsm with next := some t }, bk, hsm_result_t.ok, []) := by
      simp [hsm_transition, h]
    simp only [applyRequests, step]
    rw [ih { hsm with next := some t } (by simpa using h)]
    simp [applyDeferred]

theorem walkSpec_none (env : HandlerEnv) (d : VoidPtr) (l : List State) :
    walkSpec env d l HSM_EVENT_NONE = [] := by
  cases l <;> simp [walkSpec, HSM_EVENT_NONE]

theorem walkSpec_events (env : HandlerEnv) (d : VoidPtr)
    (hconv : ∀ s e, (env s e d).ret = e ∨ (env s e d).ret = HSM_EVENT_NONE)
    (l : List State) (e : hsm_event_t) :
    ∀ p ∈ walkSpec env d l e, p.2 = e := by
  induction l generalizing e with
  | nil => simp [walkSpec]
  | cons s rest ih =>
    by_cases he : e = HSM_EVENT_NONE
    · simp [walkSpec, he]
    · intro p hp
      simp only [walkSpec, he, if_false, List.mem_cons] at hp
      rcases hp with rfl | hp
      · rfl
      · rcases hconv s e with hr | hr
        · exact ih e p (hr ▸ hp)
        · rw [hr, walkSpec_none] at hp
          cases hp

theorem dispatchWalk_noReq (env : HandlerEnv) (henv : noReqEnv env)
    (fuel : Nat) (l : List State) (hsm : Hsm) (bk : Backend)
    (evt : hsm_event_t) (d : VoidPtr) :
    dispatchWalk env fuel l hsm bk evt d =
      some (hsm, bk,
        (walkSpec env d l evt).map
          (fun p => TraceItem.handler p.1 p.2 d)) := by
  induction l generalizing evt with
  | nil => rfl
  | cons s rest ih =>
    by_cases he : evt = HSM_EVENT_NONE
    · simp [dispatchWalk, walkSpec, he]
    · simp only [dispatchWalk, walkSpec, he, if_false,
        prv_execute_state, henv s evt d, applyRequests]
      rw [ih ((env s evt d).ret)]
      simp

theorem hsm_dispatch_ok (env : HandlerEnv) (fuel : Nat) (hsm : Hsm)
    (bk : Backend) (e : hsm_event_t) (d : VoidPtr)
    (out : Hsm × Backend × hsm_result_t × Trace)
    (h : hsm_dispatch env fuel hsm bk e d = some out) :
    out.2.2.1 = hsm_result_t.ok := by
  unfold hsm_dispatch at h
  cases hw : dispatchWalk env fuel (chainToRoot hsm.current) hsm bk e d with
  | none => rw [hw] at h; cases h
  | some x =>
    rw [hw] at h
    injection h with h
    subst h
    rfl

theorem afterStopHsm_history (h : Hsm) :
    (afterStopHsm h).history = h.history := by
  unfold afterStopHsm
  cases h.timer_handle with
  | none => rfl
  | some x => by_cases ht : h.timer_if <;> simp [ht]

theorem afterStopHsm_initial (h : Hsm) :
    (afterStopHsm h).initial = h.initial := by
  unfold afterStopHsm
  cases h.timer_handle with
  | none => rfl
  | some x => by_cases ht : h.timer_if <;> simp [ht]

theorem afterStopHsm_current (h : Hsm) :
    (afterStopHsm h).current = h.current := by
  unfold afterStopHsm
  cases h.timer_handle with
  | none => rfl
  | some x => by_cases ht : h.timer_if <;> simp [ht]

theorem afterStopHsm_timer_handle (h : Hsm)
    (hwf : h.timer_handle = none ∨ h.timer_if = true) :
    (afterStopHsm h).timer_handle = none := by
  unfold afterStopHsm
  cases hh : h.timer_handle with
  | none => simp [hh]
  | some x =>
    rcases hwf with hn | ht
    · rw [hh] at hn
      cases hn
    · simp [ht]

theorem legRequests_of_noReq (env : HandlerEnv) (henv : noReqEnv env)
    (hsm : Hsm) (t : State) (p : VoidPtr) :
    legRequests env hsm t p none = [] := by
  simp only [legRequests, hookRequests, List.flatten_eq_nil_iff,
    List.append_nil, List.nil_append, List.append_eq_nil,
    List.mem_map]
  constructor
  · rintro x ⟨a, -, rfl⟩
    exact henv a HSM_EVENT_EXIT p
  · rintro x ⟨a, -, rfl⟩
    exact henv a HSM_EVENT_ENTRY p

theorem chainToRoot_ne_nil (s : State) : chainToRoot s ≠ [] := by
  cases s <;> simp [chainToRoot]

theorem chainToRoot_head? (s : State) :
    (chainToRoot s).head? = some s := by
  cases s <;> simp [chainToRoot]

theorem chainToRoot_getLast? (s : State) :
    (chainToRoot s).getLast? = some (rootOf s) := by
  induction s with
  | root i => simp [chainToRoot, rootOf]
  | child i p ih =>
    rcases hc : chainToRoot p with _ | ⟨x, xs⟩
    · exact absurd hc (chainToRoot_ne_nil p)
    · show (State.child i p :: chainToRoot p).getLast? = some (rootOf p)
      rw [hc, List.getLast?_cons_cons, ← hc, ih]

theorem isInChain_one_iff (c st : State) :
    isInChain c st = 1 ↔ st ∈ chainToRoot c := by
  induction c with
  | root i =>
    by_cases h : State.root i = st
    · simp [isInChain, chainToRoot, h]
    · have h' : ¬ st = State.root i := fun heq => h heq.symm
      simp [isInChain, chainToRoot, h, h']
  | child i p ih =>
    by_cases h : State.child i p = st
    · simp [isInChain, chainToRoot, h, eq_comm]
    · have h' : ¬ st = State.child i p := fun heq => h heq.symm
      simp [isInChain, chainToRoot, h, h', ih]

theorem isInChain_zero_or_one (c st : State) :
    isInChain c st = 0 ∨ isInChain c st = 1 := by
  induction c with
  | root i => by_cases h : State.root i = st <;> simp [isInChain, h]
  | child i p ih =>
    by_cases h : State.child i p = st <;> simp [isInChain, h, ih]

theorem hsm_init_noDefer (env : HandlerEnv) (fuel : Nat) (name : VoidPtr)
    (initial_state : State) (timer_if : Bool) (bk : Backend)
    (hreq : initRequests env initial_state = []) :
    hsm_init env fuel name initial_state timer_if bk =
      some (initBase name initial_state timer_if, bk, hsm_result_t.ok,
        (chainToRoot initial_state).map
          (fun s => TraceItem.handler s HSM_EVENT_ENTRY none)) := by
  unfold hsm_init
  simp only [runHandlers_fst, runHandlers_snd, applyDeferred_eq]
  have h1 : ((chainToRoot initial_state).map
      (fun s => (env s HSM_EVENT_ENTRY none).requests)).flatten =
      initRequests env initial_state := rfl
  rw [h1, hreq]
  simp [initBase]

theorem hsm_init_defer (env : HandlerEnv) (fuel : Nat) (name : VoidPtr)
    (initial_state : State) (timer_if : Bool) (bk : Backend) (n : State)
    (hreq : (initRequests env initial_state).getLast? = some n) :
    hsm_init env fuel name initial_state timer_if bk =
      (match hsm_transition env fuel (initBase name initial_state timer_if)
          bk n none none with
       | none => none
       | some out => some (out.1, out.2.1, out.2.2.1,
           (chainToRoot initial_state).map
             (fun s => TraceItem.handler s HSM_EVENT_ENTRY none)
             ++ out.2.2.2)) := by
  unfold hsm_init
  simp only [runHandlers_fst, runHandlers_snd, applyDeferred_eq, foldl_last]
  have h1 : ((chainToRoot initial_state).map
      (fun s => (env s HSM_EVENT_ENTRY none).requests)).flatten =
      initRequests env initial_state := rfl
  rw [h1, hreq]
  simp [initBase]

/-! Claim theorems. -/

/-- C1: for every machine instance not already mid-transition and every
non-null target, `hsm_transition` computes the LCA of `current` and
`target` by reference equality (the computed state is a common ancestor of
both chains, and every common ancestor is on its chain), invokes the EXIT
handler with `param` for each state from `current` up to but excluding the
LCA in child-to-parent order (current first), then the hook with
`(instance, param)` if supplied, then the ENTRY handler with `param` for
each state from the LCA down to `target` (excluding the LCA) in
parent-to-child order (target last), and finally sets `current` to
`target`; when `target` equals `current`, zero EXIT and zero ENTRY
handlers are invoked.  The instance carries no stale deferred target and
the handlers involved make no nested transition requests, which is what a
single-leg transition means. -/
theorem C1_transition_lca_exit_entry (env : HandlerEnv) (fuel : Nat)
    (hsm : Hsm) (bk : Backend) (target : State) (param : VoidPtr)
    (hook : Option HookSpec)
    (hintr : hsm.in_transition = false)
    (hnext : hsm.next = none)
    (hreq : legRequests env hsm target param hook = []) :
    ∃ hEnd bkEnd,
      hsm_transition env (fuel + 1) hsm bk target param hook =
        some (hEnd, bkEnd, hsm_result_t.ok,
          stopTrace hsm
            ++ (exitPathOf hsm.current target).map
                (fun s => TraceItem.handler s HSM_EVENT_EXIT param)
            ++ hookTraceOf hook param
            ++ (entryPathOf hsm.current target).map
                (fun s => TraceItem.handler s HSM_EVENT_ENTRY param))
      ∧ hEnd.current = target
      ∧ exitPathOf hsm.current target =
          (chainToRoot hsm.current).takeWhile
            (fun x => decide (some x ≠ prv_find_lca hsm.current target))
      ∧ entryPathOf hsm.current target =
          ((chainToRoot target).takeWhile
            (fun x => decide (some x ≠ prv_find_lca hsm.current target))).reverse
      ∧ (∀ a, prv_find_lca hsm.current target = some a →
          a ∈ chainToRoot hsm.current ∧ a ∈ chainToRoot target)
      ∧ (∀ c, c ∈ chainToRoot hsm.current → c ∈ chainToRoot target →
          ∃ a, prv_find_lca hsm.current target = some a ∧ c ∈ chainToRoot a)
      ∧ (target = hsm.current →
          exitPathOf hsm.current target = [] ∧
          entryPathOf hsm.current target = []) := by
  refine ⟨_, _,
    hsm_transition_noDefer env fuel hsm bk target param hook hintr hnext hreq,
    rfl, ?_, ?_, ?_, ?_, ?_⟩
  · exact buildPathS_takeWhile hsm.current (prv_find_lca hsm.current target)
  · exact congrArg List.reverse
      (buildPathS_takeWhile target (prv_find_lca hsm.current target))
  · intro a ha
    exact prv_find_lca_mem ha
  · intro c h1 h2
    exact prv_find_lca_dom h1 h2
  · intro heq
    constructor
    · show buildPath (some hsm.current) (prv_find_lca hsm.current target) = []
      rw [heq, prv_find_lca_self]
      exact buildPathS_self _
    · show (buildPath (some target)
        (prv_find_lca hsm.current target)).reverse = []
      rw [heq, prv_find_lca_self]
      simp [buildPath, buildPathS_self]

/-- Witness for C1: the concrete transition `wA2 → wB2` in the fixture
tree, with param 7 and a hook; the LCA is `wRoot`, the exit path is
`[wA2, wA1]` and the entry path is `[wB1, wB2]`. -/
theorem C1_transition_lca_exit_entry_witness :
    (mkHsm wA2 wA2).in_transition = false ∧
    (mkHsm wA2 wA2).next = none ∧
    legRequests envQuiet (mkHsm wA2 wA2) wB2 (some 7) (some []) = [] ∧
    (∃ hEnd bkEnd,
      hsm_transition envQuiet (0 + 1) (mkHsm wA2 wA2) bk0 wB2 (some 7)
          (some []) =
        some (hEnd, bkEnd, hsm_result_t.ok,
          stopTrace (mkHsm wA2 wA2)
            ++ (exitPathOf (mkHsm wA2 wA2).current wB2).map
                (fun s => TraceItem.handler s HSM_EVENT_EXIT (some 7))
            ++ hookTraceOf (some []) (some 7)
            ++ (entryPathOf (mkHsm wA2 wA2).current wB2).map
                (fun s => TraceItem.handler s HSM_EVENT_ENTRY (some 7)))
      ∧ hEnd.current = wB2
      ∧ exitPathOf (mkHsm wA2 wA2).current wB2 =
          (chainToRoot (mkHsm wA2 wA2).current).takeWhile
            (fun x => decide (some x ≠
              prv_find_lca (mkHsm wA2 wA2).current wB2))
      ∧ entryPathOf (mkHsm wA2 wA2).current wB2 =
          ((chainToRoot wB2).takeWhile
            (fun x => decide (some x ≠
              prv_find_lca (mkHsm wA2 wA2).current wB2))).reverse
      ∧ (∀ a, prv_find_lca (mkHsm wA2 wA2).current wB2 = some a →
          a ∈ chainToRoot (mkHsm wA2 wA2).current ∧ a ∈ chainToRoot wB2)
      ∧ (∀ c, c ∈ chainToRoot (mkHsm wA2 wA2).current →
          c ∈ chainToRoot wB2 →
          ∃ a, prv_find_lca (mkHsm wA2 wA2).current wB2 = some a ∧
            c ∈ chainToRoot a)
      ∧ (wB2 = (mkHsm wA2 wA2).current →
          exitPathOf (mkHsm wA2 wA2).current wB2 = [] ∧
          entryPathOf (mkHsm wA2 wA2).current wB2 = [])) :=
  ⟨rfl, rfl, by decide,
   C1_transition_lca_exit_entry envQuiet 0 (mkHsm wA2 wA2) bk0 wB2 (some 7)
     (some []) rfl rfl (by decide)⟩

/-- Counterexample to C2 as stated: with the fixture environment where
the handler of `wA2` transforms user event 17 into residual 42, a
dispatch of event 17 from `wA2` invokes the parent handler with 42, not
with the original event — `hsm_dispatch` forwards the residual event
returned by each handler (`evt = prv_execute_state(...)` at hsm.c line
201), not the original one, so the trace fails the original-event-only
predicate. -/
theorem C2_dispatch_counterexample :
    hsm_dispatch envXform 1 (mkHsm wA2 wA2) bk0 17 none =
      some (mkHsm wA2 wA2, bk0, hsm_result_t.ok,
        [TraceItem.handler wA2 17 none, TraceItem.handler wA1 42 none])
    ∧ origEventOnly
        [TraceItem.handler wA2 17 none, TraceItem.handler wA1 42 none]
        17 = false := by
  constructor
  · decide
  · decide

/-- C2 amended: `hsm_dispatch` invokes handlers starting at `current` and
moving to the parent whenever a handler returns a non-none residual,
passing each handler the residual event returned by the previous one (the
original event for the first handler; under the convention that a handler
returns its input event unchanged when it does not consume it, every
handler receives the original event) and the same original data;
propagation stops when a handler returns the none event or the root's
parent is exhausted, and in every case dispatch returns success, an event
unhandled by all ancestors being silently dropped with no effect on the
instance rather than an error. -/
theorem C2_dispatch_propagation (env : HandlerEnv) (fuel : Nat) (hsm : Hsm)
    (bk : Backend) (event : hsm_event_t) (data : VoidPtr) :
    (noReqEnv env →
      hsm_dispatch env fuel hsm bk event data =
        some (hsm, bk, hsm_result_t.ok,
          (walkSpec env data (chainToRoot hsm.current) event).map
            (fun p => TraceItem.handler p.1 p.2 data)))
    ∧ (∀ out, hsm_dispatch env fuel hsm bk event data = some out →
        out.2.2.1 = hsm_result_t.ok)
    ∧ (noReqEnv env →
       (∀ s e, (env s e data).ret = e ∨ (env s e data).ret = HSM_EVENT_NONE) →
        ∀ out, hsm_dispatch env fuel hsm bk event data = some out →
          origEventOnly out.2.2.2 event = true) := by
  refine ⟨?_, ?_, ?_⟩
  · intro henv
    unfold hsm_dispatch
    rw [dispatchWalk_noReq env henv]
  · intro out h
    exact hsm_dispatch_ok env fuel hsm bk event data out h
  · intro henv hconv out h
    unfold hsm_dispatch at h
    rw [dispatchWalk_noReq env henv] at h
    injection h with h
    subst h
    simp only [origEventOnly, List.all_eq_true, List.mem_map]
    rintro i ⟨p, hp, rfl⟩
    have := walkSpec_events env data hconv (chainToRoot hsm.current)
      event p hp
    simp [this]

/-- Witness for C2 amended: dispatching user event 17 from `wA2` with the
quiet environment (every handler consumes every event) invokes only the
handler of `wA2` and succeeds. -/
theorem C2_dispatch_propagation_witness :
    noReqEnv envQuiet ∧
    (hsm_dispatch envQuiet 1 (mkHsm wA2 wA2) bk0 17 none =
      some (mkHsm wA2 wA2, bk0, hsm_result_t.ok,
        (walkSpec envQuiet none (chainToRoot (mkHsm wA2 wA2).current)
            17).map
          (fun p => TraceItem.handler p.1 p.2 none))) :=
  ⟨fun _ _ _ => rfl,
   (C2_dispatch_propagation envQuiet 1 (mkHsm wA2 wA2) bk0 17 none).1
     (fun _ _ _ => rfl)⟩

/-- C3: a call to `hsm_transition` on an instance whose `in_transition`
flag is set performs no exit or entry actions (its trace is empty),
overwrites the single deferred-target slot with the target and returns
success immediately, so when several deferred requests are made during one
outer transition only the most recently requested target survives in the
slot; after the outer leg completes, the engine immediately performs a
transition to the surviving deferred target with null param and null hook,
and this repeats (the continuation is again `hsm_transition`, which
re-checks the slot) until no deferral remains. -/
theorem C3_deferred_transition (env : HandlerEnv) (fuel : Nat)
    (hsmA : Hsm) (bkA : Backend) (targetA : State) (paramA : VoidPtr)
    (hookA : Option HookSpec) (hsmB : Hsm) (bkB : Backend)
    (targetB : State) (paramB : VoidPtr) (hookB : Option HookSpec) :
    (hsmA.in_transition = true →
      hsm_transition env (fuel + 1) hsmA bkA targetA paramA hookA =
        some ({ hsmA with next := some targetA }, bkA,
          hsm_result_t.ok, []))
    ∧ (hsmB.in_transition = false → hsmB.next = none →
        (transitionLeg env hsmB bkB targetB paramB hookB).1.next =
          (legRequests env hsmB targetB paramB hookB).getLast?)
    ∧ (hsmB.in_transition = false →
        ∀ n, (transitionLeg env hsmB bkB targetB paramB hookB).1.next =
            some n →
          hsm_transition env (fuel + 1) hsmB bkB targetB paramB hookB =
            (match hsm_transition env fuel
                { (transitionLeg env hsmB bkB targetB paramB hookB).1 with
                  next := none }
                (transitionLeg env hsmB bkB targetB paramB hookB).2.1 n
                none none with
             | none => none
             | some out => some (out.1, out.2.1, out.2.2.1,
                 (transitionLeg env hsmB bkB targetB paramB hookB).2.2
                   ++ out.2.2.2))) := by
  refine ⟨?_, ?_, ?_⟩
  · intro h
    simp [hsm_transition, h]
  · intro hintr hnext
    rw [transitionLeg_eq]
    show (legRequests env hsmB targetB paramB hookB).foldl
        (fun _ t => some t) hsmB.next =
      (legRequests env hsmB targetB paramB hookB).getLast?
    rw [foldl_last, hnext]
    cases (legRequests env hsmB targetB paramB hookB).getLast? <;> rfl
  · intro hintr n hn
    show (if hsmB.in_transition = true then _ else _) = _
    rw [hintr]
    simp only [Bool.false_eq_true, if_false, hn]

/-- Witness for C3: a deferral on a mid-transition instance, and the
concrete scenario where the ENTRY handler of `wB2` requests `wA1` then
`wA2`; only `wA2` survives in the slot and the engine continues with it
using null param and hook. -/
theorem C3_deferred_transition_witness :
    ({ mkHsm wA2 wA2 with in_transition := true }).in_transition = true ∧
    (hsm_transition envDefer (1 + 1)
        { mkHsm wA2 wA2 with in_transition := true } bk0 wB2 none none =
      some ({ { mkHsm wA2 wA2 with in_transition := true } with
                next := some wB2 }, bk0, hsm_result_t.ok, [])) ∧
    (mkHsm wB1 wB1).in_transition = false ∧
    (mkHsm wB1 wB1).next = none ∧
    ((transitionLeg envDefer (mkHsm wB1 wB1) bk0 wB2 none none).1.next =
      (legRequests envDefer (mkHsm wB1 wB1) wB2 none none).getLast?) ∧
    ((transitionLeg envDefer (mkHsm wB1 wB1) bk0 wB2 none none).1.next =
      some wA2) ∧
    (hsm_transition envDefer (1 + 1) (mkHsm wB1 wB1) bk0 wB2 none none =
      (match hsm_transition envDefer 1
          { (transitionLeg envDefer (mkHsm wB1 wB1) bk0 wB2 none none).1
            with next := none }
          (transitionLeg envDefer (mkHsm wB1 wB1) bk0 wB2 none none).2.1
          wA2 none none with
       | none => none
       | some out => some (out.1, out.2.1, out.2.2.1,
           (transitionLeg envDefer (mkHsm wB1 wB1) bk0 wB2 none
             none).2.2 ++ out.2.2.2))) :=
  ⟨rfl,
   (C3_deferred_transition envDefer 1
     { mkHsm wA2 wA2 with in_transition := true } bk0 wB2 none none
     (mkHsm wB1 wB1) bk0 wB2 none none).1 rfl,
   rfl, rfl,
   (C3_deferred_transition envDefer 1
     { mkHsm wA2 wA2 with in_transition := true } bk0 wB2 none none
     (mkHsm wB1 wB1) bk0 wB2 none none).2.1 rfl rfl,
   by decide,
   (C3_deferred_transition envDefer 1
     { mkHsm wA2 wA2 with in_transition := true } bk0 wB2 none none
     (mkHsm wB1 wB1) bk0 wB2 none none).2.2 rfl wA2 (by decide)⟩

theorem transitionPrepare_eq (hsm : Hsm) (bk : Backend) (target : State) :
    transitionPrepare hsm bk target =
      ({ afterStopHsm { hsm with history := some hsm.current } with
           in_transition := true },
       afterStopBk hsm bk,
       stopTrace hsm,
       buildPath (some hsm.current) (prv_find_lca hsm.current target),
       buildPath (some target) (prv_find_lca hsm.current target)) := by
  cases hsm with
  | mk current initial next name depth intr th te tif hist =>
    cases th with
    | none =>
      simp [transitionPrepare, stopCurrentTimer, afterStopHsm,
        afterStopBk, stopTrace]
    | some h =>
      by_cases ht : tif <;>
        simp [transitionPrepare, stopCurrentTimer, afterStopHsm,
          afterStopBk, stopTrace, ht]

/-- C4: a machine instance holds at most one armed timer at any time:
the instance has a single timer slot, arming while a timer is already
armed first issues a backend stop for the existing handle and leaves
exactly the one new backend timer armed, arming preserves the invariant
that the backend's armed set is exactly the slot's content in every
outcome, and every non-deferred transition unconditionally disarms and
releases an armed timer — clearing the handle and the bound event — in
its preparation phase, before any EXIT handler runs (the backend stop is
the trace prefix that precedes every handler invocation of the leg), so
zero timers are armed when the exit phase begins. -/
theorem C4_timer_at_most_one (hsm : Hsm) (bk : Backend)
    (event : hsm_event_t) (period : Nat) (mode : hsm_timer_mode_t)
    (env : HandlerEnv) (target : State) (param : VoidPtr)
    (hook : Option HookSpec) :
    (hsm.timer_if = true → 1 ≤ period → event ≠ HSM_EVENT_NONE →
     bk.failNext = false → bk.armed = hsm.timer_handle.toList →
       (hsm_timer_start hsm bk event period mode).2.2.1 =
         hsm_result_t.ok ∧
       (hsm_timer_start hsm bk event period mode).1.timer_handle =
         some bk.nextHandle ∧
       (hsm_timer_start hsm bk event period mode).2.1.armed =
         [bk.nextHandle] ∧
       (∀ h0, hsm.timer_handle = some h0 →
          (hsm_timer_start hsm bk event period mode).2.2.2 =
            [TraceItem.timerStop h0,
             TraceItem.timerStart (some bk.nextHandle) period
               (decide (mode = hsm_timer_mode_t.periodic))]))
    ∧ (bk.armed = hsm.timer_handle.toList →
        (hsm_timer_start hsm bk event period mode).2.1.armed =
          (hsm_timer_start hsm bk event period mode).1.timer_handle.toList)
    ∧ (hsm.timer_handle = none ∨ hsm.timer_if = true →
        (transitionPrepare hsm bk target).1.timer_handle = none ∧
        (∀ h0, hsm.timer_handle = some h0 →
           (transitionPrepare hsm bk target).1.timer_event =
             HSM_EVENT_NONE ∧
           (transitionPrepare hsm bk target).2.1 = bk.stop h0) ∧
        (bk.armed = hsm.timer_handle.toList →
           (transitionPrepare hsm bk target).2.1.armed = []))
    ∧ (transitionLeg env hsm bk target param hook).2.2 =
        stopTrace hsm
          ++ (exitPathOf hsm.current target).map
              (fun s => TraceItem.handler s HSM_EVENT_EXIT param)
          ++ hookTraceOf hook param
          ++ (entryPathOf hsm.current target).map
              (fun s => TraceItem.handler s HSM_EVENT_ENTRY param) := by
  refine ⟨?_, ?_, ?_, ?_⟩
  · intro htif hp he hf hinv
    have hp' : ¬ (period < 1 ∨ event = HSM_EVENT_NONE) := by
      push_neg
      exact ⟨by omega, he⟩
    have hp0 : ¬ (period = 0 ∨ event = HSM_EVENT_NONE) := by
      push_neg
      exact ⟨by omega, he⟩
    cases hh : hsm.timer_handle with
    | none =>
      rw [hh] at hinv
      simp [hsm_timer_start, Backend.start, Backend.stop, htif, hp', hp0,
        hf, hinv, hh]
    | some h0 =>
      rw [hh] at hinv
      simp only [Option.toList] at hinv
      simp [hsm_timer_start, Backend.start, Backend.stop, htif, hp', hp0,
        hf, hinv, hh, List.erase_cons_head]
  · intro hinv
    by_cases htif : hsm.timer_if = true
    · by_cases hpe : period = 0 ∨ event = HSM_EVENT_NONE
      · have hpe' : period < 1 ∨ event = HSM_EVENT_NONE := by
          rcases hpe with h | h
          · exact Or.inl (by omega)
          · exact Or.inr h
        simp [hsm_timer_start, htif, hpe, hpe', hinv]
      · have hpe' : ¬ (period < 1 ∨ event = HSM_EVENT_NONE) := by
          push_neg at hpe ⊢
          exact ⟨by omega, hpe.2⟩
        cases hh : hsm.timer_handle with
        | none =>
          rw [hh] at hinv
          cases hf : bk.failNext <;>
            simp [hsm_timer_start, Backend.start, Backend.stop, htif,
              hpe, hpe', hf, hinv, hh]
        | some h0 =>
          rw [hh] at hinv
          simp only [Option.toList] at hinv
          cases hf : bk.failNext <;>
            simp [hsm_timer_start, Backend.start, Backend.stop, htif,
              hpe, hpe', hf, hinv, hh, List.erase_cons_head]
    · simp [hsm_timer_start, htif, hinv]
  · intro hwf
    refine ⟨?_, ?_, ?_⟩
    · rw [transitionPrepare_eq]
      exact afterStopHsm_timer_handle _ hwf
    · intro h0 hh
      rcases hwf with hn | htif
      · rw [hh] at hn; cases hn
      · constructor
        · rw [transitionPrepare_eq]
          show (afterStopHsm { hsm with history := some hsm.current
              }).timer_event = HSM_EVENT_NONE
          unfold afterStopHsm
          simp [hh, htif]
        · rw [transitionPrepare_eq]
          show afterStopBk hsm bk = bk.stop h0
          unfold afterStopBk
          simp [hh, htif]
    · intro hinv
      rw [transitionPrepare_eq]
      show (afterStopBk hsm bk).armed = []
      unfold afterStopBk
      rcases hwf with hn | htif
      · rw [hn] at hinv
        simp [hn, hinv]
      · cases hh : hsm.timer_handle with
        | none =>
          rw [hh] at hinv
          simp [hh, hinv]
        | some h0 =>
          rw [hh] at hinv
          simp only [Option.toList] at hinv
          simp [hh, htif, Backend.stop, hinv, List.erase_cons_head]
  · rw [transitionLeg_eq]
    rfl

/-- Witness for C4: on the fixture instance `hsmT` (armed timer handle 5,
configured backend `bkT`), re-arming with event 33 for 500 ms stops
handle 5 first and leaves exactly the new timer 100 armed; a transition
from `hsmT` clears the handle and the bound event and empties the backend
in its preparation phase. -/
theorem C4_timer_at_most_one_witness :
    hsmT.timer_if = true ∧ bkT.failNext = false ∧
    bkT.armed = hsmT.timer_handle.toList ∧
    (hsm_timer_start hsmT bkT 33 500 hsm_timer_mode_t.periodic).2.2.1 =
      hsm_result_t.ok ∧
    (hsm_timer_start hsmT bkT 33 500
      hsm_timer_mode_t.periodic).1.timer_handle = some bkT.nextHandle ∧
    (hsm_timer_start hsmT bkT 33 500 hsm_timer_mode_t.periodic).2.1.armed =
      [bkT.nextHandle] ∧
    (hsm_timer_start hsmT bkT 33 500 hsm_timer_mode_t.periodic).2.2.2 =
      [TraceItem.timerStop 5,
       TraceItem.timerStart (some bkT.nextHandle) 500
         (decide (hsm_timer_mode_t.periodic = hsm_timer_mode_t.periodic))] ∧
    (transitionPrepare hsmT bkT wB2).1.timer_handle = none ∧
    (transitionPrepare hsmT bkT wB2).1.timer_event = HSM_EVENT_NONE ∧
    (transitionPrepare hsmT bkT wB2).2.1.armed = [] := by
  have T := C4_timer_at_most_one hsmT bkT 33 500 hsm_timer_mode_t.periodic
    envQuiet wB2 none none
  have h1 := T.1 rfl (by decide) (by decide) rfl (by decide)
  have h3 := T.2.2.1 (Or.inr rfl)
  exact ⟨rfl, rfl, by decide, h1.1, h1.2.1, h1.2.2.1, h1.2.2.2 5 rfl,
    h3.1, (h3.2.1 5 rfl).1, h3.2.2 (by decide)⟩

/-- C5: for every non-null instance and initial state, `hsm_init` invokes
the ENTRY handler for every state on the full chain from the initial
state up to the root in leaf-to-root order (the trace is the chain in
collection order: the initial state first, its root last, so each child's
entry action runs before its parent's — the reverse of a normal
transition's entry order), sets `current` to the initial state, and
afterwards performs the same deferred-transition check as a normal
transition: a transition requested from within an initial ENTRY handler
runs only after the initial chain is fully entered, its trace appended
after the whole entry chain. -/
theorem C5_init_entry_chain (env : HandlerEnv) (fuel : Nat)
    (name : VoidPtr) (initial_state : State) (timer_if : Bool)
    (bk : Backend) :
    (initRequests env initial_state = [] →
      hsm_init env fuel name initial_state timer_if bk =
        some (initBase name initial_state timer_if, bk, hsm_result_t.ok,
          (chainToRoot initial_state).map
            (fun s => TraceItem.handler s HSM_EVENT_ENTRY none))
      ∧ (initBase name initial_state timer_if).current = initial_state)
    ∧ (chainToRoot initial_state).head? = some initial_state
    ∧ (chainToRoot initial_state).getLast? = some (rootOf initial_state)
    ∧ (∀ i p, initial_state = State.child i p →
        chainToRoot initial_state = initial_state :: chainToRoot p)
    ∧ (∀ n, (initRequests env initial_state).getLast? = some n →
        hsm_init env fuel name initial_state timer_if bk =
          (match hsm_transition env fuel
              (initBase name initial_state timer_if) bk n none none with
           | none => none
           | some out => some (out.1, out.2.1, out.2.2.1,
               (chainToRoot initial_state).map
                 (fun s => TraceItem.handler s HSM_EVENT_ENTRY none)
                 ++ out.2.2.2))) := by
  refine ⟨?_, chainToRoot_head? _, chainToRoot_getLast? _, ?_, ?_⟩
  · intro hreq
    exact ⟨hsm_init_noDefer env fuel name initial_state timer_if bk hreq,
      rfl⟩
  · intro i p h
    subst h
    rfl
  · intro n hn
    exact hsm_init_defer env fuel name initial_state timer_if bk n hn

/-- Witness for C5: initializing at `wA2` with the quiet environment
enters `wA2`, `wA1`, `wRoot` in that order and leaves `current = wA2`. -/
theorem C5_init_entry_chain_witness :
    initRequests envQuiet wA2 = [] ∧
    hsm_init envQuiet 1 none wA2 false bk0 =
      some (initBase none wA2 false, bk0, hsm_result_t.ok,
        (chainToRoot wA2).map
          (fun s => TraceItem.handler s HSM_EVENT_ENTRY none)) ∧
    (initBase none wA2 false).current = wA2 ∧
    (chainToRoot wA2).head? = some wA2 ∧
    (chainToRoot wA2).getLast? = some (rootOf wA2) := by
  have T := C5_init_entry_chain envQuiet 1 none wA2 false bk0
  have h1 := T.1 (by decide)
  exact ⟨by decide, h1.1, h1.2, T.2.1, T.2.2.1⟩

/-- C6: with the history feature enabled, after a completed transition
from state A to state B a call to `hsm_transition_history` returns the
instance to A (`current` becomes A again, since the transition recorded A
in the history slot), and calling `hsm_transition_history` on an instance
whose history slot was never populated transitions to its original
initial state.  Handlers are assumed to make no nested transition
requests, so both transitions are single legs. -/
theorem C6_history_round_trip (env : HandlerEnv) (fuel : Nat)
    (hsm : Hsm) (bk : Backend) (B : State)
    (henv : noReqEnv env)
    (hintr : hsm.in_transition = false) (hnext : hsm.next = none) :
    (∃ h1 b1 tr1,
      hsm_transition env (fuel + 1) hsm bk B none none =
        some (h1, b1, hsm_result_t.ok, tr1) ∧
      h1.current = B ∧ h1.history = some hsm.current ∧
      (∃ h2 b2 tr2,
        hsm_transition_history env (fuel + 1) h1 b1 =
          some (h2, b2, hsm_result_t.ok, tr2) ∧
        h2.current = hsm.current))
    ∧ (hsm.history = none →
        ∃ h3 b3 tr3,
          hsm_transition_history env (fuel + 1) hsm bk =
            some (h3, b3, hsm_result_t.ok, tr3) ∧
          h3.current = hsm.initial) := by
  constructor
  · have hh : ({ afterStopHsm { hsm with history := some hsm.current } with
        current := B, depth := prv_get_state_depth (some B),
        in_transition := false, next := none } : Hsm).history =
        some hsm.current := by
      show (afterStopHsm { hsm with history := some hsm.current }).history =
        some hsm.current
      rw [afterStopHsm_history]
    refine ⟨_, _, _,
      hsm_transition_noDefer env fuel hsm bk B none none hintr hnext
        (legRequests_of_noReq env henv hsm B none),
      rfl, hh, ?_⟩
    unfold hsm_transition_history
    rw [hh]
    exact ⟨_, _, _,
      hsm_transition_noDefer env fuel _ _ hsm.current none none rfl rfl
        (legRequests_of_noReq env henv _ hsm.current none),
      rfl⟩
  · intro hh
    unfold hsm_transition_history
    rw [hh]
    exact ⟨_, _, _,
      hsm_transition_noDefer env fuel hsm bk hsm.initial none none
        hintr hnext (legRequests_of_noReq env henv hsm hsm.initial none),
      rfl⟩

/-- Witness for C6: transitioning `wA2 → wB2` and then invoking the
history transition brings the instance back to `wA2`; on the fresh
instance (history never populated) the history transition goes to the
initial state. -/
theorem C6_history_round_trip_witness :
    noReqEnv envQuiet ∧
    (mkHsm wA2 wA2).in_transition = false ∧
    (mkHsm wA2 wA2).next = none ∧
    (∃ h1 b1 tr1,
      hsm_transition envQuiet (0 + 1) (mkHsm wA2 wA2) bk0 wB2 none none =
        some (h1, b1, hsm_result_t.ok, tr1) ∧
      h1.current = wB2 ∧ h1.history = some (mkHsm wA2 wA2).current ∧
      (∃ h2 b2 tr2,
        hsm_transition_history envQuiet (0 + 1) h1 b1 =
          some (h2, b2, hsm_result_t.ok, tr2) ∧
        h2.current = (mkHsm wA2 wA2).current)) ∧
    ((mkHsm wA2 wA2).history = none) ∧
    (∃ h3 b3 tr3,
      hsm_transition_history envQuiet (0 + 1) (mkHsm wA2 wA2) bk0 =
        some (h3, b3, hsm_result_t.ok, tr3) ∧
      h3.current = (mkHsm wA2 wA2).initial) := by
  have T := C6_history_round_trip envQuiet 0 (mkHsm wA2 wA2) bk0 wB2
    (fun _ _ _ => rfl) rfl rfl
  exact ⟨fun _ _ _ => rfl, rfl, rfl, T.1, rfl, T.2 rfl⟩

/-- C7: `hsm_state_create` fails with `HSM_RES_INVALID_PARAM` when the
state pointer or the handler is absent; with valid arguments it computes
`prv_get_state_depth(parent) + 1` and fails with `HSM_RES_MAX_DEPTH`
exactly when that depth reaches `HSM_CFG_MAX_DEPTH`, leaving the passed-in
state structure unmodified on that failure; otherwise it succeeds and
populates exactly the handler, parent and name fields. -/
theorem C7_state_create_results (old : hsm_state_struct) (name : VoidPtr)
    (hd : Nat) (parent : Option State) :
    (∀ h, hsm_state_create none name h parent =
      (hsm_result_t.invalid_param, none))
    ∧ hsm_state_create (some old) name none parent =
        (hsm_result_t.invalid_param, some old)
    ∧ ((hsm_state_create (some old) name (some hd) parent).1 =
        hsm_result_t.max_depth ↔
        HSM_CFG_MAX_DEPTH ≤ prv_get_state_depth parent + 1)
    ∧ (HSM_CFG_MAX_DEPTH ≤ prv_get_state_depth parent + 1 →
        hsm_state_create (some old) name (some hd) parent =
          (hsm_result_t.max_depth, some old))
    ∧ (prv_get_state_depth parent + 1 < HSM_CFG_MAX_DEPTH →
        hsm_state_create (some old) name (some hd) parent =
          (hsm_result_t.ok,
           some { handler := some hd, parent := parent, name := name })) := by
  by_cases hdep : HSM_CFG_MAX_DEPTH ≤ prv_get_state_depth parent + 1
  · refine ⟨fun h => rfl, rfl, ?_, ?_, ?_⟩
    · simp [hsm_state_create, hdep]
    · intro _
      simp [hsm_state_create, hdep]
    · intro hlt
      omega
  · refine ⟨fun h => rfl, rfl, ?_, ?_, ?_⟩
    · simp only [hsm_state_create, if_neg hdep]
      constructor
      · intro h
        cases h
      · intro h
        exact absurd h hdep
    · intro h
      exact absurd h hdep
    · intro _
      simp [hsm_state_create, hdep]

/-- Witness for C7: creating a state under the depth-7 fixture parent
fails with the maximum-depth error and leaves the structure unmodified;
creating under `wA2` succeeds and fills exactly handler, parent, name. -/
theorem C7_state_create_results_witness :
    (8 ≤ prv_get_state_depth (some wDeep7) + 1) ∧
    hsm_state_create
        (some { handler := none, parent := none, name := none }) none
        (some 1) (some wDeep7) =
      (hsm_result_t.max_depth,
       some { handler := none, parent := none, name := none }) ∧
    (prv_get_state_depth (some wA2) + 1 < 8) ∧
    hsm_state_create
        (some { handler := none, parent := none, name := none }) none
        (some 1) (some wA2) =
      (hsm_result_t.ok,
       some { handler := some 1, parent := some wA2, name := none }) ∧
    hsm_state_create
        (some { handler := none, parent := none, name := none }) none
        none (some wA2) =
      (hsm_result_t.invalid_param,
       some { handler := none, parent := none, name := none }) := by
  refine ⟨by decide, ?_, by decide, ?_, ?_⟩
  · exact (C7_state_create_results
      { handler := none, parent := none, name := none } none 1
      (some wDeep7)).2.2.2.1 (by decide)
  · exact (C7_state_create_results
      { handler := none, parent := none, name := none } none 1
      (some wA2)).2.2.2.2 (by decide)
  · exact (C7_state_create_results
      { handler := none, parent := none, name := none } none 1
      (some wA2)).2.1

/-- C8: `hsm_timer_start` fails with `HSM_RES_INVALID_PARAM` exactly when
no usable timer backend is configured, the period is below 1 ms, or the
event is `HSM_EVENT_NONE`; and when the backend's start primitive fails
(returns the `NULL` handle) the call returns `HSM_RES_ERROR` and leaves
the instance's timer binding empty — no armed handle and the bound event
reset to none — so no timer is armed after a failed arm. -/
theorem C8_timer_start_errors (hsm : Hsm) (bk : Backend)
    (event : hsm_event_t) (period : Nat) (mode : hsm_timer_mode_t) :
    ((hsm_timer_start hsm bk event period mode).2.2.1 =
        hsm_result_t.invalid_param ↔
      hsm.timer_if = false ∨ period < 1 ∨ event = HSM_EVENT_NONE)
    ∧ (hsm.timer_if = true → 1 ≤ period → event ≠ HSM_EVENT_NONE →
        bk.failNext = true →
        (hsm_timer_start hsm bk event period mode).2.2.1 =
          hsm_result_t.error ∧
        (hsm_timer_start hsm bk event period mode).1.timer_handle =
          none ∧
        (hsm_timer_start hsm bk event period mode).1.timer_event =
          HSM_EVENT_NONE) := by
  constructor
  · by_cases htif : hsm.timer_if = true
    · by_cases hpe : period < 1 ∨ event = HSM_EVENT_NONE
      · have hpe0 : period = 0 ∨ event = HSM_EVENT_NONE := by
          rcases hpe with h | h
          · exact Or.inl (by omega)
          · exact Or.inr h
        simp [hsm_timer_start, htif, hpe, hpe0]
      · have hpe0 : ¬ (period = 0 ∨ event = HSM_EVENT_NONE) := by
          push_neg at hpe ⊢
          exact ⟨by omega, hpe.2⟩
        cases hh : hsm.timer_handle <;> cases hf : bk.failNext <;>
          simp [hsm_timer_start, Backend.start, Backend.stop, htif, hpe,
            hpe0, hh, hf]
    · have htif' : hsm.timer_if = false := by
        cases h : hsm.timer_if
        · rfl
        · exact absurd h htif
      simp [hsm_timer_start, htif']
  · intro htif hp he hf
    have hpe0 : ¬ (period = 0 ∨ event = HSM_EVENT_NONE) := by
      push_neg
      exact ⟨by omega, he⟩
    have hpe : ¬ (period < 1 ∨ event = HSM_EVENT_NONE) := by
      push_neg
      exact ⟨by omega, he⟩
    cases hh : hsm.timer_handle <;>
      simp [hsm_timer_start, Backend.start, Backend.stop, htif, hpe,
        hpe0, hh, hf]

/-- Witness for C8: arming on an instance without a backend is an invalid
parameter; arming on `hsmT` with a failing backend returns the generic
error and leaves handle and bound event cleared. -/
theorem C8_timer_start_errors_witness :
    ((hsm_timer_start (mkHsm wA2 wA2) bk0 33 500
        hsm_timer_mode_t.periodic).2.2.1 = hsm_result_t.invalid_param ↔
      (mkHsm wA2 wA2).timer_if = false ∨ 500 < 1 ∨
        (33 : hsm_event_t) = HSM_EVENT_NONE) ∧
    hsmT.timer_if = true ∧
    ({ bkT with failNext := true } : Backend).failNext = true ∧
    (hsm_timer_start hsmT { bkT with failNext := true } 33 500
      hsm_timer_mode_t.periodic).2.2.1 = hsm_result_t.error ∧
    (hsm_timer_start hsmT { bkT with failNext := true } 33 500
      hsm_timer_mode_t.periodic).1.timer_handle = none ∧
    (hsm_timer_start hsmT { bkT with failNext := true } 33 500
      hsm_timer_mode_t.periodic).1.timer_event = HSM_EVENT_NONE := by
  have T := C8_timer_start_errors hsmT { bkT with failNext := true } 33 500
    hsm_timer_mode_t.periodic
  have h2 := T.2 rfl (by decide) (by decide) rfl
  exact ⟨(C8_timer_start_errors (mkHsm wA2 wA2) bk0 33 500
    hsm_timer_mode_t.periodic).1, rfl, rfl, h2.1, h2.2.1, h2.2.2⟩

/-- C9: for states that share no common ancestor (current and target lie
under distinct roots), the LCA computation terminates with the `NULL`
parent pointer acting as a virtual common root (`prv_find_lca` returns
none), and the transition is still well-defined: it exits the entire
current chain including its root state and enters the entire target chain
including its root state. -/
theorem C9_disjoint_roots_transition (env : HandlerEnv) (fuel : Nat)
    (hsm : Hsm) (bk : Backend) (target : State) (param : VoidPtr)
    (hook : Option HookSpec)
    (hintr : hsm.in_transition = false) (hnext : hsm.next = none)
    (hreq : legRequests env hsm target param hook = [])
    (hroots : rootOf hsm.current ≠ rootOf target) :
    prv_find_lca hsm.current target = none
    ∧ exitPathOf hsm.current target = chainToRoot hsm.current
    ∧ entryPathOf hsm.current target = (chainToRoot target).reverse
    ∧ ∃ hEnd bkEnd,
        hsm_transition env (fuel + 1) hsm bk target param hook =
          some (hEnd, bkEnd, hsm_result_t.ok,
            stopTrace hsm
              ++ (chainToRoot hsm.current).map
                  (fun s => TraceItem.handler s HSM_EVENT_EXIT param)
              ++ hookTraceOf hook param
              ++ ((chainToRoot target).reverse).map
                  (fun s => TraceItem.handler s HSM_EVENT_ENTRY param))
        ∧ hEnd.current = target := by
  have hlca := prv_find_lca_none_of_rootOf_ne hroots
  have hexit : exitPathOf hsm.current target = chainToRoot hsm.current := by
    show buildPath (some hsm.current) (prv_find_lca hsm.current target) =
      chainToRoot hsm.current
    rw [hlca]
    exact buildPathS_none _
  have hentry : entryPathOf hsm.current target =
      (chainToRoot target).reverse := by
    show (buildPath (some target)
        (prv_find_lca hsm.current target)).reverse =
      (chainToRoot target).reverse
    rw [hlca]
    exact congrArg List.reverse (buildPathS_none _)
  refine ⟨hlca, hexit, hentry, ?_⟩
  rw [← hexit, ← hentry]
  exact ⟨_, _,
    hsm_transition_noDefer env fuel hsm bk target param hook hintr hnext
      hreq,
    rfl⟩

/-- Witness for C9: transitioning from `wA2` (under `wRoot`) to `wC1`
(under the separate root `wR2`) exits `wA2, wA1, wRoot` and enters
`wR2, wC1`. -/
theorem C9_disjoint_roots_transition_witness :
    (mkHsm wA2 wA2).in_transition = false ∧
    (mkHsm wA2 wA2).next = none ∧
    legRequests envQuiet (mkHsm wA2 wA2) wC1 none none = [] ∧
    rootOf (mkHsm wA2 wA2).current ≠ rootOf wC1 ∧
    (prv_find_lca (mkHsm wA2 wA2).current wC1 = none
     ∧ exitPathOf (mkHsm wA2 wA2).current wC1 =
         chainToRoot (mkHsm wA2 wA2).current
     ∧ entryPathOf (mkHsm wA2 wA2).current wC1 =
         (chainToRoot wC1).reverse
     ∧ ∃ hEnd bkEnd,
         hsm_transition envQuiet (0 + 1) (mkHsm wA2 wA2) bk0 wC1 none
             none =
           some (hEnd, bkEnd, hsm_result_t.ok,
             stopTrace (mkHsm wA2 wA2)
               ++ (chainToRoot (mkHsm wA2 wA2).current).map
                   (fun s => TraceItem.handler s HSM_EVENT_EXIT none)
               ++ hookTraceOf none none
               ++ ((chainToRoot wC1).reverse).map
                   (fun s => TraceItem.handler s HSM_EVENT_ENTRY none))
         ∧ hEnd.current = wC1) :=
  ⟨rfl, rfl, by decide, by decide,
   C9_disjoint_roots_transition envQuiet 0 (mkHsm wA2 wA2) bk0 wC1 none
     none rfl rfl (by decide) (by decide)⟩

/-- C10: `hsm_is_in_state` returns 1 exactly when the queried state is
the instance's current state or an ancestor of it on the parent chain,
returns 0 otherwise, and returns 0 (not an error) when the instance or
the state argument is `NULL`. -/
theorem C10_is_in_state_query (hsm : Hsm) (st : State) :
    (hsm_is_in_state (some hsm) (some st) = 1 ↔
      st ∈ chainToRoot hsm.current)
    ∧ (st ∉ chainToRoot hsm.current →
        hsm_is_in_state (some hsm) (some st) = 0)
    ∧ hsm_is_in_state none (some st) = 0
    ∧ hsm_is_in_state (some hsm) none = 0
    ∧ hsm_is_in_state none none = 0 := by
  refine ⟨isInChain_one_iff _ _, ?_, rfl, rfl, rfl⟩
  intro hmem
  rcases isInChain_zero_or_one hsm.current st with h | h
  · exact h
  · exact absurd ((isInChain_one_iff _ _).1 h) hmem

/-- Witness for C10: on the instance at `wA2`, querying the ancestor
`wA1` returns 1 and querying the unrelated `wB1` returns 0; `NULL`
arguments return 0. -/
theorem C10_is_in_state_query_witness :
    (hsm_is_in_state (some (mkHsm wA2 wA2)) (some wA1) = 1 ↔
      wA1 ∈ chainToRoot (mkHsm wA2 wA2).current) ∧
    (wB1 ∉ chainToRoot (mkHsm wA2 wA2).current) ∧
    hsm_is_in_state (some (mkHsm wA2 wA2)) (some wB1) = 0 ∧
    hsm_is_in_state none (some wA1) = 0 ∧
    hsm_is_in_state (some (mkHsm wA2 wA2)) none = 0 := by
  have T := C10_is_in_state_query (mkHsm wA2 wA2) wB1
  exact ⟨(C10_is_in_state_query (mkHsm wA2 wA2) wA1).1, by decide,
    T.2.1 (by decide), rfl, rfl⟩
